import Mathlib

/-!
Verification of the per-match position-interval engine of the
PassesPerMinute repository (`src/passes_per_minute/passes_counter/match_processor.py`).

The Python code is shallowly embedded:
* a Python dict is an insertion-ordered association list (assignment to an
  existing key updates in place, a new key is appended at the end);
* a missing dict key accessed with `d[k]` is a `KeyError`, modelled as
  `Except.error`; `d.get(k, default)` is total;
* match minutes are natural numbers (StatsBomb event minutes are non-negative
  integers); minute totals are `Int` because the code computes
  `end_time - start_time` and clamps negative results to zero;
* `None`-able fields are `Option`.
-/

namespace PassesPerMinute

/-- One position interval of a player: `{"position": ..., "start_time": ...,
"end_time": ...}` where `end_time = none` means the interval is still open. -/
structure Interval where
  position : String
  start_time : Nat
  end_time : Option Nat
deriving DecidableEq, Repr

/-- A player's timeline: the Python list of interval dicts. -/
abbrev Timeline := List Interval

/-- The `player_positions` dict: player id → timeline, insertion ordered. -/
abbrev PlayerPositions := List (Nat × Timeline)

/-- Per-position accumulators: the `{"passes": X, "minutes": Y}` dict. -/
structure Stats where
  passes : Nat
  minutes : Int
deriving DecidableEq, Repr

/-- The `match_positions` defaultdict: position name → stats, insertion
ordered; absent keys read as `{"passes": 0, "minutes": 0}`. -/
abbrev MatchPositions := List (String × Stats)

/-- Python dict lookup `pp[k]` / `k in pp` (keys are unique by construction). -/
def lookupPP : PlayerPositions → Nat → Option Timeline
  | [], _ => none
  | (k2, v) :: rest, k => if k2 = k then some v else lookupPP rest k

/-- Python dict assignment `pp[k] = v`: update in place if the key exists,
append at the end otherwise. -/
def setPP : PlayerPositions → Nat → Timeline → PlayerPositions
  | [], k, v => [(k, v)]
  | (k2, v2) :: rest, k, v =>
      if k2 = k then (k2, v) :: rest else (k2, v2) :: setPP rest k v

/-- Read of the `match_positions` defaultdict for inspection: an absent
position reads as zero stats. -/
def getStats : MatchPositions → String → Stats
  | [], _ => ⟨0, 0⟩
  | (p, s) :: rest, q => if p = q then s else getStats rest q

/-- `match_positions[pos]["passes"] += 1` with defaultdict semantics: an
absent key is created (appended) with zero stats before the increment. -/
def bumpPasses : MatchPositions → String → MatchPositions
  | [], pos => [(pos, ⟨1, 0⟩)]
  | (p, s) :: rest, pos =>
      if p = pos then (p, { s with passes := s.passes + 1 }) :: rest
      else (p, s) :: bumpPasses rest pos

/-- `match_positions[pos]["minutes"] += d` with defaultdict semantics. -/
def bumpMinutes : MatchPositions → String → Int → MatchPositions
  | [], pos, d => [(pos, ⟨0, d⟩)]
  | (p, s) :: rest, pos, d =>
      if p = pos then (p, { s with minutes := s.minutes + d }) :: rest
      else (p, s) :: bumpMinutes rest pos d

/-- A StatsBomb match event, restricted to the fields the processor reads:
`typeName` is `event.get("type", {}).get("name")`; `player` is
`event["player"]["id"]` when the `player` key is present; `minute` is the
optional `minute` field; `position` is the name inside a truthy `position`
payload; `replacement` is `event["substitution"]["replacement"]["id"]`;
`lineup` is `event["tactics"]["lineup"]` as (player id, position name) pairs. -/
structure Event where
  typeName : Option String
  player : Option Nat
  minute : Option Nat
  position : Option String
  replacement : Option Nat
  lineup : Option (List (Nat × String))
deriving DecidableEq, Repr

/-- `MatchProcessor._extract_starting_xi`: give every lineup player a fresh
one-interval timeline open from minute 0. A missing `tactics.lineup` payload
is a Python `KeyError`. -/
def extract_starting_xi (event : Event) (player_positions : PlayerPositions) :
    Except String PlayerPositions :=
  match event.lineup with
  | none => .error "KeyError: tactics.lineup"
  | some lineup =>
      .ok (lineup.foldl
        (fun acc pl => setPP acc pl.1 [⟨pl.2, 0, none⟩]) player_positions)

/-- Set the last interval's `end_time` (`positions_list[-1]["end_time"] = m`). -/
def setLastEnd : Timeline → Nat → Timeline
  | [], _ => []
  | [i], m => [{ i with end_time := some m }]
  | i :: j :: rest, m => i :: setLastEnd (j :: rest) m

/-- `MatchProcessor._handle_substitution`: read `player`, the substitution
replacement and `minute` (each a `KeyError` if absent — all three reads happen
before the safeguard); if the outgoing player is untracked do nothing beyond a
log line; otherwise close the outgoing player's last interval at `minute` and
give the incoming player a fresh one-interval timeline at the same position. -/
def handle_substitution (event : Event) (player_positions : PlayerPositions) :
    Except String PlayerPositions :=
  match event.player with
  | none => .error "KeyError: player"
  | some player_out =>
    match event.replacement with
    | none => .error "KeyError: substitution.replacement"
    | some player_in =>
      match event.minute with
      | none => .error "KeyError: minute"
      | some minute =>
        match lookupPP player_positions player_out with
        | none => .ok player_positions
        | some tl =>
          match tl.getLast? with
          | none => .error "IndexError: list index out of range"
          | some last =>
              .ok (setPP (setPP player_positions player_out (setLastEnd tl minute))
                    player_in [⟨last.position, minute, none⟩])

/-- `MatchProcessor._update_player_positions` (the caller has already checked
`"player" in event`, so the player id is passed in): a falsy `position`
payload is a no-op; otherwise `minute` is read (`KeyError` if absent) before
the tracking check; an untracked player is a no-op; a position equal to the
last interval's position is a no-op; otherwise the last interval is closed at
`minute` and a new open interval with the new position is appended. -/
def update_player_positions (player_id : Nat) (event : Event)
    (player_positions : PlayerPositions) : Except String PlayerPositions :=
  match event.position with
  | none => .ok player_positions
  | some position =>
    match event.minute with
    | none => .error "KeyError: minute"
    | some minute =>
      match lookupPP player_positions player_id with
      | none => .ok player_positions
      | some tl =>
        match tl.getLast? with
        | none => .error "IndexError: list index out of range"
        | some last =>
            if position = last.position then .ok player_positions
            else .ok (setPP player_positions player_id
                        (setLastEnd tl minute ++ [⟨position, minute, none⟩]))

/-- The per-event dispatch of `MatchProcessor.process_match`: `Starting XI`
and `Substitution` events get their handlers, and independently every event
carrying a `player` key goes through `_update_player_positions`. -/
def process_event (event : Event) (player_positions : PlayerPositions) :
    Except String PlayerPositions := do
  let pp1 ←
    if event.typeName = some "Starting XI" then
      extract_starting_xi event player_positions
    else if event.typeName = some "Substitution" then
      handle_substitution event player_positions
    else
      .ok player_positions
  match event.player with
  | some pid => update_player_positions pid event pp1
  | none => .ok pp1

/-- The event loop of `MatchProcessor.process_match`. -/
def process_events (events : List Event) (player_positions : PlayerPositions) :
    Except String PlayerPositions :=
  match events with
  | [] => .ok player_positions
  | e :: rest => do process_events rest (← process_event e player_positions)

/-- The match-end-time computation of `MatchProcessor._finalize_process`:
`90` for an empty event list, otherwise the maximum over
`event.get("minute", 0)`; the `if minutes else 90` guard of the source is kept
(it can only fire when `events` is empty). -/
def match_end_time (events : List Event) : Nat :=
  if events = [] then 90
  else
    let minutes := events.map (fun e => e.minute.getD 0)
    match minutes.max? with
    | some m => m
    | none => 90

/-- Close a timeline at match end: if it is non-empty and its last interval is
open, set that interval's `end_time`; otherwise leave it alone. -/
def close_timeline (T : Nat) (tl : Timeline) : Timeline :=
  match tl.getLast? with
  | some last => if last.end_time = none then setLastEnd tl T else tl
  | none => tl

/-- The minute-summing inner loop of `_finalize_process`: each interval adds
`end_time - start_time`, clamped below at zero, to its position's minutes. An
open interval at this stage is the Python `None - int` `TypeError`. -/
def sum_timeline_minutes (match_positions : MatchPositions) :
    Timeline → Except String MatchPositions
  | [] => .ok match_positions
  | i :: rest =>
    match i.end_time with
    | none => .error "TypeError: unsupported operand type(s) for -: NoneType and int"
    | some e =>
        let minutes_played : Int := (e : Int) - (i.start_time : Int)
        let minutes_played := if minutes_played < 0 then 0 else minutes_played
        sum_timeline_minutes (bumpMinutes match_positions i.position minutes_played) rest

/-- The player loop of `_finalize_process` at a fixed match end time: close
each timeline and accumulate its minutes, in dict order. -/
def finalize_loop (T : Nat) :
    List (Nat × Timeline) → MatchPositions →
    Except String (List (Nat × Timeline) × MatchPositions)
  | [], mp => .ok ([], mp)
  | (pid, tl) :: rest, mp =>
    let tl2 := close_timeline T tl
    match sum_timeline_minutes mp tl2 with
    | .error s => .error s
    | .ok mp2 =>
      match finalize_loop T rest mp2 with
      | .error s => .error s
      | .ok (rest2, mp3) => .ok ((pid, tl2) :: rest2, mp3)

/-- `MatchProcessor._finalize_process`: compute match end time from the
events, close every open last interval at it, and sum played minutes per
position. Returns the mutated `player_positions` alongside `match_positions`. -/
def finalize_process (player_positions : PlayerPositions)
    (match_positions : MatchPositions) (events : List Event) :
    Except String (PlayerPositions × MatchPositions) :=
  finalize_loop (match_end_time events) player_positions match_positions

/-- The interval scan of `_aggregate_pass_data`: skip open intervals, take the
first closed interval with `start_time <= minute < end_time`. -/
def first_closed_match : Timeline → Nat → Option Interval
  | [], _ => none
  | i :: rest, minute =>
    match i.end_time with
    | none => first_closed_match rest minute
    | some e =>
        if i.start_time ≤ minute ∧ minute < e then some i
        else first_closed_match rest minute

/-- One step of `_aggregate_pass_data`: a `Pass` event with a `player` key by
a tracked player bumps the pass count of the position of the first closed
interval containing `event.get("minute", 0)`; everything else is a no-op. -/
def aggregate_pass_event (player_positions : PlayerPositions)
    (match_positions : MatchPositions) (event : Event) : MatchPositions :=
  if event.typeName = some "Pass" then
    match event.player with
    | none => match_positions
    | some player_id =>
      let minute := event.minute.getD 0
      match lookupPP player_positions player_id with
      | none => match_positions
      | some tl =>
        match first_closed_match tl minute with
        | none => match_positions
        | some i => bumpPasses match_positions i.position
  else match_positions

/-- `MatchProcessor._aggregate_pass_data`: fold the pass step over all events. -/
def aggregate_pass_data (events : List Event) (match_positions : MatchPositions)
    (player_positions : PlayerPositions) : MatchPositions :=
  events.foldl (aggregate_pass_event player_positions) match_positions

/-- `MatchProcessor.process_match` on an already-fetched event list (the HTTP
fetch and the match counter are outside the core): build the timelines,
finalize, then aggregate passes against the finalized timelines. -/
def process_match (events : List Event) : Except String MatchPositions := do
  let pp ← process_events events []
  let (pp2, mp) ← finalize_process pp [] events
  .ok (aggregate_pass_data events mp pp2)

/-- Spec-side predicate: the interval satisfies
`start_time <= minute < end_time` (false on an open interval). -/
def contains_minute (i : Interval) (minute : Nat) : Bool :=
  decide (i.start_time ≤ minute) &&
    (match i.end_time with
     | some e => decide (minute < e)
     | none => false)

/-- Spec-side clamped duration of an interval:
`max(0, end_time - start_time)`. -/
def clamped_minutes (i : Interval) : Int :=
  max 0 ((i.end_time.getD 0 : Int) - (i.start_time : Int))

/-- Total minutes recorded across all positions of a stats dict. -/
def total_minutes (mp : MatchPositions) : Int :=
  (mp.map (fun x => x.2.minutes)).sum

/-- The action of `_update_player_positions` (lines 86–93) on the tracked
player's own timeline: a repeated position is a no-op, a new position closes
the last interval at `minute` and appends a new open interval. -/
def poschange_step (tl : Timeline) (position : String) (minute : Nat) : Timeline :=
  match tl.getLast? with
  | none => tl
  | some last =>
      if position = last.position then tl
      else setLastEnd tl minute ++ [⟨position, minute, none⟩]

/-- A single uninterrupted timeline: one interval opened at `s0` (by the
starting lineup, `s0 = 0`, or by a substitution-in at minute `s0`), followed
by a sequence of position changes. -/
def build (s0 : Nat) (pos0 : String) (changes : List (String × Nat)) : Timeline :=
  changes.foldl (fun tl c => poschange_step tl c.1 c.2) [⟨pos0, s0, none⟩]

/-- Shape invariant of one timeline: non-empty, and every interval except the
last is closed (equivalently: at most one open interval, and if present it is
the last element). -/
def tl_shape (tl : Timeline) : Prop :=
  tl ≠ [] ∧ ∀ i ∈ tl.dropLast, i.end_time ≠ none

/-- Shape invariant of the whole timeline map. -/
def timelines_wf (pp : PlayerPositions) : Prop :=
  ∀ pid tl, lookupPP pp pid = some tl → tl_shape tl

/-- Ordering invariant of one timeline relative to the latest minute `lo`
seen so far: start times are non-decreasing and all bounded by `lo`. -/
def tl_sorted_le (tl : Timeline) (lo : Nat) : Prop :=
  List.Sorted (· ≤ ·) (tl.map Interval.start_time) ∧ ∀ i ∈ tl, i.start_time ≤ lo

/-- Ordering invariant of the whole timeline map. -/
def timelines_sorted (pp : PlayerPositions) (lo : Nat) : Prop :=
  ∀ pid tl, lookupPP pp pid = some tl → tl_sorted_le tl lo

/-! ## Helper lemmas about the dictionary and timeline primitives -/

theorem lookupPP_setPP (pp : PlayerPositions) (k k2 : Nat) (v : Timeline) :
    lookupPP (setPP pp k v) k2 = if k = k2 then some v else lookupPP pp k2 := by
  induction pp with
  | nil => simp [setPP, lookupPP]
  | cons hd rest ih =>
      obtain ⟨a, b⟩ := hd
      by_cases hak : a = k
      · subst hak
        by_cases hak2 : a = k2 <;> simp [setPP, lookupPP, hak2]
      · by_cases hak2 : a = k2
        · subst hak2
          simp [setPP, lookupPP, hak, Ne.symm hak]
        · simp [setPP, lookupPP, hak, hak2, ih]

theorem setLastEnd_eq (tl : Timeline) (last : Interval) (m : Nat)
    (h : tl.getLast? = some last) :
    setLastEnd tl m = tl.dropLast ++ [{ last with end_time := some m }] := by
  induction tl with
  | nil => simp at h
  | cons i rest ih =>
      cases rest with
      | nil =>
          simp [List.getLast?] at h
          subst h
          simp [setLastEnd]
      | cons j rest2 =>
          rw [List.getLast?_cons_cons] at h
          simp [setLastEnd, ih h]

theorem setLastEnd_concat (l : Timeline) (i : Interval) (m : Nat) :
    setLastEnd (l ++ [i]) m = l ++ [{ i with end_time := some m }] := by
  rw [setLastEnd_eq (l ++ [i]) i m (by simp), List.dropLast_concat]

theorem getStats_bumpPasses (mp : MatchPositions) (p q : String) :
    getStats (bumpPasses mp p) q =
      if p = q then
        { getStats mp q with passes := (getStats mp q).passes + 1 }
      else getStats mp q := by
  induction mp with
  | nil =>
      by_cases hpq : p = q <;> simp [bumpPasses, getStats, hpq]
  | cons hd rest ih =>
      obtain ⟨a, s⟩ := hd
      by_cases hap : a = p
      · subst hap
        by_cases haq : a = q
        · subst haq
          simp [bumpPasses, getStats]
        · simp [bumpPasses, getStats, haq]
      · by_cases haq : a = q
        · subst haq
          simp [bumpPasses, getStats, hap, Ne.symm hap]
        · simp [bumpPasses, getStats, hap, haq, ih]

theorem getStats_bumpMinutes (mp : MatchPositions) (p q : String) (d : Int) :
    getStats (bumpMinutes mp p d) q =
      if p = q then
        { getStats mp q with minutes := (getStats mp q).minutes + d }
      else getStats mp q := by
  induction mp with
  | nil =>
      by_cases hpq : p = q <;> simp [bumpMinutes, getStats, hpq]
  | cons hd rest ih =>
      obtain ⟨a, s⟩ := hd
      by_cases hap : a = p
      · subst hap
        by_cases haq : a = q
        · subst haq
          simp [bumpMinutes, getStats]
        · simp [bumpMinutes, getStats, haq]
      · by_cases haq : a = q
        · subst haq
          simp [bumpMinutes, getStats, hap, Ne.symm hap]
        · simp [bumpMinutes, getStats, hap, haq, ih]

theorem total_minutes_bumpMinutes (mp : MatchPositions) (p : String) (d : Int) :
    total_minutes (bumpMinutes mp p d) = total_minutes mp + d := by
  induction mp with
  | nil => simp [bumpMinutes, total_minutes]
  | cons hd rest ih =>
      obtain ⟨a, s⟩ := hd
      by_cases hap : a = p
      · subst hap
        simp [bumpMinutes, total_minutes]
        ring
      · simp [bumpMinutes, total_minutes, hap] at ih ⊢
        omega

theorem except_bind_ok {α β : Type} (x : Except String α)
    (f : α → Except String β) (b : β) (h : x.bind f = .ok b) :
    ∃ a, x = .ok a ∧ f a = .ok b := by
  cases x with
  | error s => simp [Except.bind] at h
  | ok a => exact ⟨a, rfl, h⟩

theorem first_closed_match_eq_find (tl : Timeline) (m : Nat) :
    first_closed_match tl m = tl.find? (fun i => contains_minute i m) := by
  induction tl with
  | nil => simp [first_closed_match]
  | cons i rest ih =>
      cases he : i.end_time with
      | none => simp [first_closed_match, he, List.find?, contains_minute, ih]
      | some e =>
          by_cases hm : i.start_time ≤ m ∧ m < e
          · simp [first_closed_match, he, List.find?, contains_minute, hm.1, hm.2]
          · have : contains_minute i m = false := by
              simp [contains_minute, he]
              omega
            simp [first_closed_match, he, hm, List.find?, this, ih]

/-! ## Claim theorems -/

/-- C1: after finalization has closed all intervals, a Pass event carrying a
tracked player's id and minute `m` increments by exactly 1 the pass count of
the position of the first interval in that player's timeline satisfying
`start_time <= m < end_time`, changes no other pass count and no minutes
total; and the matched interval never has `end_time = m`, so at a boundary
minute the pass goes to the later (new) interval's position, never the
earlier one. -/
theorem pass_attribution_first_interval
    (e : Event) (pp : PlayerPositions) (mp : MatchPositions)
    (pid m : Nat) (tl : Timeline) (i : Interval)
    (htype : e.typeName = some "Pass") (hp : e.player = some pid)
    (hm : e.minute = some m)
    (htl : lookupPP pp pid = some tl)
    (hclosed : ∀ iv ∈ tl, iv.end_time ≠ none)
    (hfind : tl.find? (fun iv => contains_minute iv m) = some i) :
    (getStats (aggregate_pass_event pp mp e) i.position).passes
        = (getStats mp i.position).passes + 1 ∧
    (∀ q, q ≠ i.position → getStats (aggregate_pass_event pp mp e) q = getStats mp q) ∧
    (∀ q, (getStats (aggregate_pass_event pp mp e) q).minutes = (getStats mp q).minutes) ∧
    i.end_time ≠ some m := by
  have hagg : aggregate_pass_event pp mp e = bumpPasses mp i.position := by
    simp [aggregate_pass_event, htype, hp, hm, htl,
      first_closed_match_eq_find, hfind]
  have hc := List.find?_some hfind
  simp only [contains_minute, Bool.and_eq_true, decide_eq_true_eq] at hc
  refine ⟨?_, ?_, ?_, ?_⟩
  · rw [hagg, getStats_bumpPasses]
    simp
  · intro q hq
    rw [hagg, getStats_bumpPasses, if_neg (fun h2 => hq h2.symm)]
  · intro q
    rw [hagg, getStats_bumpPasses]
    by_cases hq : i.position = q <;> simp [hq]
  · intro heq
    rw [heq] at hc
    simp at hc

/-- Witness for C1 at the boundary minute 30 of the timeline
`[CM 0–30, CAM 30–60]`: the pass at minute 30 goes to CAM, the later
interval's position. -/
theorem pass_attribution_first_interval_witness :
    (getStats (aggregate_pass_event [(2, [⟨"CM", 0, some 30⟩, ⟨"CAM", 30, some 60⟩])] []
        ⟨some "Pass", some 2, some 30, none, none, none⟩) "CAM").passes
      = (getStats [] "CAM").passes + 1 ∧
    (∀ q, q ≠ "CAM" →
      getStats (aggregate_pass_event [(2, [⟨"CM", 0, some 30⟩, ⟨"CAM", 30, some 60⟩])] []
        ⟨some "Pass", some 2, some 30, none, none, none⟩) q = getStats [] q) ∧
    (∀ q, (getStats (aggregate_pass_event [(2, [⟨"CM", 0, some 30⟩, ⟨"CAM", 30, some 60⟩])] []
        ⟨some "Pass", some 2, some 30, none, none, none⟩) q).minutes = (getStats [] q).minutes) ∧
    (⟨"CAM", 30, some 60⟩ : Interval).end_time ≠ some 30 :=
  pass_attribution_first_interval
    ⟨some "Pass", some 2, some 30, none, none, none⟩
    [(2, [⟨"CM", 0, some 30⟩, ⟨"CAM", 30, some 60⟩])] [] 2 30
    [⟨"CM", 0, some 30⟩, ⟨"CAM", 30, some 60⟩] ⟨"CAM", 30, some 60⟩
    rfl rfl rfl (by decide) (by decide) (by decide)

/-- C4: substitution handling, given `(player_out, player_in, minute)`: if
`player_out` is untracked, every timeline is unchanged (silent no-op);
otherwise the `end_time` of `player_out`'s last interval is set to `minute`,
and `player_in`'s timeline is replaced by exactly one open interval starting
at `minute` with the position just closed for `player_out`, discarding any
prior timeline of `player_in`. -/
theorem substitution_closes_out_opens_in
    (e : Event) (pp : PlayerPositions) (p_out p_in m : Nat)
    (hp : e.player = some p_out) (hr : e.replacement = some p_in)
    (hm : e.minute = some m) :
    (lookupPP pp p_out = none → handle_substitution e pp = .ok pp) ∧
    (∀ tl last, lookupPP pp p_out = some tl → tl.getLast? = some last →
      p_out ≠ p_in →
      ∃ pp2, handle_substitution e pp = .ok pp2 ∧
        lookupPP pp2 p_out
          = some (tl.dropLast ++ [⟨last.position, last.start_time, some m⟩]) ∧
        lookupPP pp2 p_in = some [⟨last.position, m, none⟩] ∧
        (∀ q, q ≠ p_out → q ≠ p_in → lookupPP pp2 q = lookupPP pp q)) := by
  constructor
  · intro hnone
    simp [handle_substitution, hp, hr, hm, hnone]
  · intro tl last htl hlast hne
    refine ⟨setPP (setPP pp p_out (setLastEnd tl m)) p_in [⟨last.position, m, none⟩],
      ?_, ?_, ?_, ?_⟩
    · simp [handle_substitution, hp, hr, hm, htl, hlast]
    · rw [lookupPP_setPP, if_neg (Ne.symm hne), lookupPP_setPP, if_pos rfl,
        setLastEnd_eq tl last m hlast]
    · rw [lookupPP_setPP, if_pos rfl]
    · intro q hqo hqi
      rw [lookupPP_setPP, if_neg (fun h2 => hqi h2.symm),
        lookupPP_setPP, if_neg (fun h2 => hqo h2.symm)]

/-- Witness for C4: player 10 (CB, open from 0) is replaced by player 11 at
minute 60; player 11 had a previous timeline, which is discarded. -/
theorem substitution_closes_out_opens_in_witness :
    (lookupPP [(10, [⟨"CB", 0, none⟩]), (11, [⟨"LW", 0, some 5⟩])] 10 = none →
      handle_substitution ⟨some "Substitution", some 10, some 60, none, some 11, none⟩
        [(10, [⟨"CB", 0, none⟩]), (11, [⟨"LW", 0, some 5⟩])]
        = .ok [(10, [⟨"CB", 0, none⟩]), (11, [⟨"LW", 0, some 5⟩])]) ∧
    (∀ tl last,
      lookupPP [(10, [⟨"CB", 0, none⟩]), (11, [⟨"LW", 0, some 5⟩])] 10 = some tl →
      tl.getLast? = some last → 10 ≠ 11 →
      ∃ pp2,
        handle_substitution ⟨some "Substitution", some 10, some 60, none, some 11, none⟩
          [(10, [⟨"CB", 0, none⟩]), (11, [⟨"LW", 0, some 5⟩])] = .ok pp2 ∧
        lookupPP pp2 10
          = some (tl.dropLast ++ [⟨last.position, last.start_time, some 60⟩]) ∧
        lookupPP pp2 11 = some [⟨last.position, 60, none⟩] ∧
        (∀ q, q ≠ 10 → q ≠ 11 →
          lookupPP pp2 q
            = lookupPP [(10, [⟨"CB", 0, none⟩]), (11, [⟨"LW", 0, some 5⟩])] q)) :=
  substitution_closes_out_opens_in
    ⟨some "Substitution", some 10, some 60, none, some 11, none⟩
    [(10, [⟨"CB", 0, none⟩]), (11, [⟨"LW", 0, some 5⟩])] 10 11 60 rfl rfl rfl

theorem first_closed_match_none (tl : Timeline) (T : Nat)
    (hclosed : ∀ iv ∈ tl, ∃ e2, iv.end_time = some e2 ∧ e2 ≤ T) :
    first_closed_match tl T = none := by
  induction tl with
  | nil => rfl
  | cons i rest ih =>
      obtain ⟨e2, he2, hle⟩ := hclosed i (by simp)
      have hno : ¬(i.start_time ≤ T ∧ T < e2) := by omega
      simp only [first_closed_match, he2, hno, if_false]
      exact ih (fun iv hiv => hclosed iv (by simp [hiv]))

/-- C10: a Pass event at minute exactly `T`, the match end time (the maximum
minute over all events), by a tracked player none of whose intervals extends
past `T` (in particular one whose last interval was closed by finalization at
`T`), is silently dropped: the stats dict is returned unchanged, because
attribution requires the pass minute to be strictly below the interval's
`end_time`. -/
theorem pass_at_match_end_dropped
    (events : List Event) (e : Event) (pp : PlayerPositions) (mp : MatchPositions)
    (pid T : Nat) (tl : Timeline)
    (he : e ∈ events) (hT : T = match_end_time events)
    (htype : e.typeName = some "Pass") (hp : e.player = some pid)
    (hm : e.minute = some T)
    (htl : lookupPP pp pid = some tl)
    (hclosed : ∀ iv ∈ tl, ∃ e2, iv.end_time = some e2 ∧ e2 ≤ T) :
    aggregate_pass_event pp mp e = mp := by
  simp [aggregate_pass_event, htype, hp, hm, htl,
    first_closed_match_none tl T hclosed]

/-- Witness for C10: the sole pass of the match happens at minute 40, which
is also the match end time; the passer's only interval is `[0, 40)`, so the
pass counts nowhere. -/
theorem pass_at_match_end_dropped_witness :
    (⟨some "Pass", some 1, some 40, none, none, none⟩ : Event)
        ∈ [(⟨some "Pass", some 1, some 40, none, none, none⟩ : Event)] ∧
    (40 : Nat) = match_end_time [⟨some "Pass", some 1, some 40, none, none, none⟩] ∧
    aggregate_pass_event [(1, [⟨"GK", 0, some 40⟩])] [("GK", ⟨7, 40⟩)]
        ⟨some "Pass", some 1, some 40, none, none, none⟩ = [("GK", ⟨7, 40⟩)] :=
  ⟨by decide, by decide,
    pass_at_match_end_dropped
      [⟨some "Pass", some 1, some 40, none, none, none⟩]
      ⟨some "Pass", some 1, some 40, none, none, none⟩
      [(1, [⟨"GK", 0, some 40⟩])] [("GK", ⟨7, 40⟩)] 1 40 [⟨"GK", 0, some 40⟩]
      (by decide) (by decide) rfl rfl rfl (by decide)
      (by intro iv hiv
          simp at hiv
          exact ⟨40, by simp [hiv]⟩)⟩

theorem sum_timeline_minutes_ok (tl : Timeline) (mp : MatchPositions)
    (hclosed : ∀ i ∈ tl, i.end_time ≠ none) :
    ∃ mp2, sum_timeline_minutes mp tl = .ok mp2 ∧
      (∀ q, (getStats mp2 q).passes = (getStats mp q).passes) ∧
      (∀ q, (getStats mp2 q).minutes = (getStats mp q).minutes +
          (tl.map (fun i => if i.position = q then clamped_minutes i else 0)).sum) ∧
      total_minutes mp2 = total_minutes mp + (tl.map clamped_minutes).sum := by
  induction tl generalizing mp with
  | nil => exact ⟨mp, rfl, fun q => rfl, by simp, by simp⟩
  | cons i rest ih =>
      cases he2 : i.end_time with
      | none => exact absurd he2 (hclosed i (by simp))
      | some e =>
          have hd : (if ((e : Int) - (i.start_time : Int)) < 0 then 0
              else ((e : Int) - (i.start_time : Int))) = clamped_minutes i := by
            simp only [clamped_minutes, he2, Option.getD_some]
            omega
          obtain ⟨mp2, hok, hpass, hmin, htot⟩ :=
            ih (bumpMinutes mp i.position (clamped_minutes i))
              (fun j hj => hclosed j (by simp [hj]))
          refine ⟨mp2, ?_, ?_, ?_, ?_⟩
          · simp only [sum_timeline_minutes, he2]
            rw [hd]
            exact hok
          · intro q
            rw [hpass q, getStats_bumpMinutes]
            by_cases h : i.position = q <;> simp [h]
          · intro q
            rw [hmin q, getStats_bumpMinutes]
            by_cases h : i.position = q <;> simp [h] <;> ring
          · rw [htot, total_minutes_bumpMinutes]
            simp
            ring

/-- C6: during minute aggregation every finalized (closed) interval
contributes exactly `max(0, end_time - start_time)` minutes to its position's
total — an inverted interval contributes 0 — so no interval decreases any
minutes total, and totals that start non-negative stay non-negative. -/
theorem minutes_contribution_clamped
    (tl : Timeline) (mp : MatchPositions)
    (hclosed : ∀ i ∈ tl, i.end_time ≠ none) :
    ∃ mp2, sum_timeline_minutes mp tl = .ok mp2 ∧
      (∀ q, (getStats mp2 q).minutes = (getStats mp q).minutes +
          (tl.map (fun i => if i.position = q then clamped_minutes i else 0)).sum) ∧
      (∀ i ∈ tl, 0 ≤ clamped_minutes i) ∧
      (∀ q, (getStats mp q).minutes ≤ (getStats mp2 q).minutes) ∧
      ((∀ q, 0 ≤ (getStats mp q).minutes) → ∀ q, 0 ≤ (getStats mp2 q).minutes) := by
  obtain ⟨mp2, hok, _, hmin, _⟩ := sum_timeline_minutes_ok tl mp hclosed
  have hterm : ∀ q, 0 ≤ (tl.map
      (fun i => if i.position = q then clamped_minutes i else 0)).sum := by
    intro q
    apply List.sum_nonneg
    intro x hx
    simp only [List.mem_map] at hx
    obtain ⟨i, _, hxi⟩ := hx
    subst hxi
    by_cases h : i.position = q <;> simp [h, clamped_minutes, le_max_left]
  refine ⟨mp2, hok, hmin, ?_, ?_, ?_⟩
  · intro i _
    exact le_max_left 0 _
  · intro q
    have := hterm q
    rw [hmin q]
    omega
  · intro hnn q
    have := hterm q
    have := hnn q
    rw [hmin q]
    omega

/-- Witness for C6 at the spec's own example: the inverted interval
`start_time = 50, end_time = 30` contributes exactly 0 minutes. -/
theorem minutes_contribution_clamped_witness :
    ∃ mp2, sum_timeline_minutes [("CM", ⟨0, 7⟩)] [⟨"CM", 50, some 30⟩] = .ok mp2 ∧
      (∀ q, (getStats mp2 q).minutes = (getStats [("CM", ⟨0, 7⟩)] q).minutes +
          (([⟨"CM", 50, some 30⟩] : Timeline).map
            (fun i => if i.position = q then clamped_minutes i else 0)).sum) ∧
      (∀ i ∈ ([⟨"CM", 50, some 30⟩] : Timeline), 0 ≤ clamped_minutes i) ∧
      (∀ q, (getStats [("CM", ⟨0, 7⟩)] q).minutes ≤ (getStats mp2 q).minutes) ∧
      ((∀ q, 0 ≤ (getStats [("CM", ⟨0, 7⟩)] q).minutes) →
        ∀ q, 0 ≤ (getStats mp2 q).minutes) :=
  minutes_contribution_clamped [⟨"CM", 50, some 30⟩] [("CM", ⟨0, 7⟩)] (by decide)

theorem foldl_max_spec (as : List Nat) (a : Nat) :
    (∀ x ∈ a :: as, x ≤ as.foldl max a) ∧ as.foldl max a ∈ a :: as := by
  induction as generalizing a with
  | nil => simp
  | cons b bs ih =>
      obtain ⟨ihb, ihm⟩ := ih (max a b)
      constructor
      · intro x hx
        simp only [List.mem_cons] at hx
        rcases hx with rfl | rfl | hx
        · exact le_trans (le_max_left x b) (ihb _ (by simp))
        · exact le_trans (le_max_right a x) (ihb _ (by simp))
        · exact ihb x (by simp [hx])
      · simp only [List.foldl_cons]
        simp only [List.mem_cons] at ihm ⊢
        rcases ihm with he | hm
        · rcases max_choice a b with hab | hab <;> rw [he, hab] <;> simp
        · simp [hm]

theorem match_end_time_cons (e : Event) (rest : List Event) :
    match_end_time (e :: rest)
      = (rest.map (fun x => x.minute.getD 0)).foldl max (e.minute.getD 0) := by
  simp [match_end_time, List.max?]

theorem finalize_loop_timelines (T : Nat) (entries : List (Nat × Timeline))
    (mp : MatchPositions) (entries2 : List (Nat × Timeline)) (mp2 : MatchPositions)
    (h : finalize_loop T entries mp = .ok (entries2, mp2)) :
    entries2 = entries.map (fun x => (x.1, close_timeline T x.2)) := by
  induction entries generalizing mp entries2 mp2 with
  | nil =>
      simp [finalize_loop] at h
      simp [h.1]
  | cons hd rest ih =>
      obtain ⟨pid, tl⟩ := hd
      simp only [finalize_loop] at h
      cases hs : sum_timeline_minutes mp (close_timeline T tl) with
      | error s => simp [hs] at h
      | ok mpa =>
          simp only [hs] at h
          cases hrest : finalize_loop T rest mpa with
          | error s => simp [hrest] at h
          | ok pr =>
              obtain ⟨rest2, mpb⟩ := pr
              simp only [hrest, Except.ok.injEq, Prod.mk.injEq] at h
              rw [← h.1, ih mpa rest2 mpb hrest]
              rfl

theorem lookupPP_map_close (T : Nat) (pp : PlayerPositions) (pid : Nat) :
    lookupPP (pp.map (fun x => (x.1, close_timeline T x.2))) pid
      = (lookupPP pp pid).map (close_timeline T) := by
  induction pp with
  | nil => simp [lookupPP]
  | cons hd rest ih =>
      obtain ⟨k, v⟩ := hd
      by_cases hk : k = pid <;> simp [lookupPP, hk, ih]

theorem close_timeline_open (tl : Timeline) (last : Interval) (T : Nat)
    (h : tl.getLast? = some last) (ho : last.end_time = none) :
    close_timeline T tl
      = tl.dropLast ++ [⟨last.position, last.start_time, some T⟩] := by
  simp [close_timeline, h, ho, setLastEnd_eq tl last T h]

theorem close_timeline_closed (tl : Timeline) (last : Interval) (T : Nat)
    (h : tl.getLast? = some last) (hc : last.end_time ≠ none) :
    close_timeline T tl = tl := by
  simp [close_timeline, h, hc]

/-- C2 counterexample: a non-empty event list whose single event carries no
minute field yields match end time 0, not the claimed default 90, and an open
interval from minute 10 is closed at 0 (its minutes clamped to 0). -/
theorem match_end_no_minute_fields_counterexample :
    match_end_time [⟨some "Dummy", none, none, none, none, none⟩] = 0 ∧
    finalize_process [(7, [⟨"LW", 10, none⟩])] []
        [⟨some "Dummy", none, none, none, none, none⟩]
      = .ok ([(7, [⟨"LW", 10, some 0⟩])], [("LW", ⟨0, 0⟩)]) ∧
    (0 : Nat) ≠ 90 :=
  ⟨rfl, rfl, by decide⟩

/-- C2 amended: finalization determines the match end time as 90 only when
the event list is empty; otherwise it is the maximum over all events of the
minute field with absent minutes counted as 0 (so a non-empty event list with
no minute fields gives 0, not 90). Every timeline whose last interval is
still open is closed at this match end time; already-closed timelines are
left unchanged. -/
theorem match_end_time_and_closing
    (events : List Event) (pp : PlayerPositions) (mp : MatchPositions)
    (pp2 : PlayerPositions) (mp2 : MatchPositions)
    (hfin : finalize_process pp mp events = .ok (pp2, mp2)) :
    (events = [] → match_end_time events = 90) ∧
    (events ≠ [] →
      (∀ e ∈ events, e.minute.getD 0 ≤ match_end_time events) ∧
      ∃ e ∈ events, e.minute.getD 0 = match_end_time events) ∧
    (∀ pid tl last, lookupPP pp pid = some tl → tl.getLast? = some last →
      last.end_time = none →
      lookupPP pp2 pid = some
        (tl.dropLast ++ [⟨last.position, last.start_time, some (match_end_time events)⟩])) ∧
    (∀ pid tl last, lookupPP pp pid = some tl → tl.getLast? = some last →
      last.end_time ≠ none → lookupPP pp2 pid = some tl) := by
  have hpp2 : pp2 = pp.map (fun x => (x.1, close_timeline (match_end_time events) x.2)) :=
    finalize_loop_timelines (match_end_time events) pp mp pp2 mp2 hfin
  refine ⟨?_, ?_, ?_, ?_⟩
  · intro he
    subst he
    rfl
  · intro hne
    cases events with
    | nil => exact absurd rfl hne
    | cons e0 rest =>
        obtain ⟨hb, hm⟩ := foldl_max_spec (rest.map (fun x => x.minute.getD 0))
          (e0.minute.getD 0)
        constructor
        · intro e he
          rw [match_end_time_cons]
          rcases List.mem_cons.mp he with rfl | hr
          · exact hb _ (by simp)
          · exact hb _ (List.mem_cons_of_mem _ (List.mem_map_of_mem _ hr))
        · rw [match_end_time_cons]
          rcases List.mem_cons.mp hm with heq | hmem
          · exact ⟨e0, by simp, heq.symm⟩
          · obtain ⟨e, he, heq⟩ := List.mem_map.mp hmem
            exact ⟨e, List.mem_cons_of_mem _ he, heq⟩
  · intro pid tl last htl hlast ho
    rw [hpp2, lookupPP_map_close, htl]
    simp [close_timeline_open tl last _ hlast ho]
  · intro pid tl last htl hlast hc
    rw [hpp2, lookupPP_map_close, htl]
    simp [close_timeline_closed tl last _ hlast hc]

/-- Witness for the amended C2: one event at minute 37; the open interval of
player 7 is closed at 37, the already-closed interval of player 8 is kept. -/
theorem match_end_time_and_closing_witness :
    (([⟨some "Dummy", none, some 37, none, none, none⟩] : List Event) = [] →
      match_end_time [⟨some "Dummy", none, some 37, none, none, none⟩] = 90) ∧
    (([⟨some "Dummy", none, some 37, none, none, none⟩] : List Event) ≠ [] →
      (∀ e ∈ ([⟨some "Dummy", none, some 37, none, none, none⟩] : List Event),
        e.minute.getD 0 ≤ match_end_time [⟨some "Dummy", none, some 37, none, none, none⟩]) ∧
      ∃ e ∈ ([⟨some "Dummy", none, some 37, none, none, none⟩] : List Event),
        e.minute.getD 0 = match_end_time [⟨some "Dummy", none, some 37, none, none, none⟩]) ∧
    (∀ pid tl last,
      lookupPP [(7, [⟨"LW", 10, none⟩]), (8, [⟨"GK", 0, some 20⟩])] pid = some tl →
      tl.getLast? = some last → last.end_time = none →
      lookupPP
        [(7, [⟨"LW", 10, some 37⟩]), (8, [⟨"GK", 0, some 20⟩])] pid = some
        (tl.dropLast ++ [⟨last.position, last.start_time,
          some (match_end_time [⟨some "Dummy", none, some 37, none, none, none⟩])⟩])) ∧
    (∀ pid tl last,
      lookupPP [(7, [⟨"LW", 10, none⟩]), (8, [⟨"GK", 0, some 20⟩])] pid = some tl →
      tl.getLast? = some last → last.end_time ≠ none →
      lookupPP
        [(7, [⟨"LW", 10, some 37⟩]), (8, [⟨"GK", 0, some 20⟩])] pid = some tl) :=
  match_end_time_and_closing
    [⟨some "Dummy", none, some 37, none, none, none⟩]
    [(7, [⟨"LW", 10, none⟩]), (8, [⟨"GK", 0, some 20⟩])] []
    [(7, [⟨"LW", 10, some 37⟩]), (8, [⟨"GK", 0, some 20⟩])]
    [("LW", ⟨0, 27⟩), ("GK", ⟨0, 20⟩)] rfl

/-- C8 counterexample: substitution handling and position-change handling are
not total on events without a minute field — both raise `KeyError`
(`event["minute"]`) instead of treating the missing minute as 0. -/
theorem missing_minute_not_total_counterexample :
    handle_substitution ⟨some "Substitution", some 10, none, none, some 11, none⟩
        [(10, [⟨"CB", 0, none⟩])] = .error "KeyError: minute" ∧
    update_player_positions 5 ⟨some "Dummy", some 5, none, some "LWB", none, none⟩
        [(5, [⟨"LB", 0, none⟩])] = .error "KeyError: minute" :=
  ⟨rfl, rfl⟩

/-- C8 amended: only finalization's match-end computation and pass
attribution treat an absent minute as 0 (both are invariant under replacing
an absent minute by 0); substitution handling and position-change handling
(whenever a position payload is present) fail with `KeyError` on an event
whose minute field is absent. -/
theorem missing_minute_partial_totality :
    (∀ (pp : PlayerPositions) (mp : MatchPositions) (e : Event),
      aggregate_pass_event pp mp e
        = aggregate_pass_event pp mp { e with minute := some (e.minute.getD 0) }) ∧
    (∀ (e : Event) (rest : List Event), e.minute = none →
      match_end_time (e :: rest) = match_end_time ({ e with minute := some 0 } :: rest)) ∧
    (∀ (e : Event) (pp : PlayerPositions) (p_out p_in : Nat),
      e.player = some p_out → e.replacement = some p_in → e.minute = none →
      handle_substitution e pp = .error "KeyError: minute") ∧
    (∀ (e : Event) (pp : PlayerPositions) (pid : Nat) (pos : String),
      e.position = some pos → e.minute = none →
      update_player_positions pid e pp = .error "KeyError: minute") := by
  refine ⟨?_, ?_, ?_, ?_⟩
  · intro pp mp e
    cases e with
    | mk t p m pos r l => cases m <;> rfl
  · intro e rest hm
    rw [match_end_time_cons, match_end_time_cons]
    simp [hm]
  · intro e pp p_out p_in hp hr hm
    simp [handle_substitution, hp, hr, hm]
  · intro e pp pid pos hpos hm
    simp [update_player_positions, hpos, hm]

/-- Witness for the amended C8 at concrete minute-less events. -/
theorem missing_minute_partial_totality_witness :
    aggregate_pass_event [] [] ⟨some "Pass", some 1, none, none, none, none⟩
      = aggregate_pass_event [] [] ⟨some "Pass", some 1, some 0, none, none, none⟩ ∧
    match_end_time [⟨some "Dummy", none, none, none, none, none⟩]
      = match_end_time [⟨some "Dummy", none, some 0, none, none, none⟩] ∧
    handle_substitution ⟨some "Substitution", some 10, none, none, some 11, none⟩ []
      = .error "KeyError: minute" ∧
    update_player_positions 5 ⟨some "Dummy", some 5, none, some "LWB", none, none⟩ []
      = .error "KeyError: minute" :=
  ⟨missing_minute_partial_totality.1 [] [] ⟨some "Pass", some 1, none, none, none, none⟩,
   missing_minute_partial_totality.2.1 ⟨some "Dummy", none, none, none, none, none⟩ [] rfl,
   missing_minute_partial_totality.2.2.1 ⟨some "Substitution", some 10, none, none, some 11, none⟩
     [] 10 11 rfl rfl rfl,
   missing_minute_partial_totality.2.2.2 ⟨some "Dummy", some 5, none, some "LWB", none, none⟩
     [] 5 "LWB" rfl rfl⟩

/-- C3 counterexample: player 1 is substituted out at minute 40 (timeline
closed, `[GK 0–40]`), yet a later event carrying player 1's id and a
different position payload at minute 50 re-closes the last interval at 50 and
appends a new open interval — the timeline receives a further interval after
substitution-out. -/
theorem substitution_not_terminal_counterexample :
    (process_events [⟨some "Starting XI", none, none, none, none, some [(1, "GK")]⟩,
        ⟨some "Substitution", some 1, some 40, none, some 2, none⟩] []).toOption.bind
      (fun pp => lookupPP pp 1) = some [⟨"GK", 0, some 40⟩] ∧
    (process_events [⟨some "Starting XI", none, none, none, none, some [(1, "GK")]⟩,
        ⟨some "Substitution", some 1, some 40, none, some 2, none⟩,
        ⟨some "Dummy", some 1, some 50, some "CB", none, none⟩] []).toOption.bind
      (fun pp => lookupPP pp 1)
      = some [⟨"GK", 0, some 50⟩, ⟨"CB", 50, none⟩] :=
  ⟨rfl, rfl⟩

/-- C3 amended: substitution-out is not terminal. After a player's last
interval has been closed, a later event carrying the player's id is a no-op
only when it has no position payload, or when its position payload (with a
minute present) equals the last interval's position; an event with a
different position name and a minute re-closes the last interval at that
minute and appends a new open interval to the timeline. -/
theorem substitution_not_terminal
    (e : Event) (pp : PlayerPositions) (pid : Nat) (tl : Timeline)
    (last : Interval) (pos : String) (m : Nat)
    (htl : lookupPP pp pid = some tl) (hlast : tl.getLast? = some last)
    (hclosed : last.end_time ≠ none) :
    (e.position = none → update_player_positions pid e pp = .ok pp) ∧
    (e.position = some last.position → e.minute = some m →
      update_player_positions pid e pp = .ok pp) ∧
    (e.position = some pos → pos ≠ last.position → e.minute = some m →
      ∃ pp2, update_player_positions pid e pp = .ok pp2 ∧
        lookupPP pp2 pid = some (tl.dropLast ++
          [⟨last.position, last.start_time, some m⟩, ⟨pos, m, none⟩])) := by
  refine ⟨?_, ?_, ?_⟩
  · intro hnone
    simp [update_player_positions, hnone]
  · intro hpos hm
    simp [update_player_positions, hpos, hm, htl, hlast]
  · intro hpos hne hm
    refine ⟨setPP pp pid (setLastEnd tl m ++ [⟨pos, m, none⟩]), ?_, ?_⟩
    · simp [update_player_positions, hpos, hm, htl, hlast, hne]
    · rw [lookupPP_setPP, if_pos rfl, setLastEnd_eq tl last m hlast]
      simp

/-- Witness for the amended C3: player 1, substituted out at minute 40, gets
a new open CB interval from a position event at minute 50. -/
theorem substitution_not_terminal_witness :
    ((⟨some "Dummy", some 1, some 50, some "CB", none, none⟩ : Event).position = none →
      update_player_positions 1 ⟨some "Dummy", some 1, some 50, some "CB", none, none⟩
        [(1, [⟨"GK", 0, some 40⟩])] = .ok [(1, [⟨"GK", 0, some 40⟩])]) ∧
    ((⟨some "Dummy", some 1, some 50, some "CB", none, none⟩ : Event).position
        = some (⟨"GK", 0, some 40⟩ : Interval).position →
      (⟨some "Dummy", some 1, some 50, some "CB", none, none⟩ : Event).minute = some 50 →
      update_player_positions 1 ⟨some "Dummy", some 1, some 50, some "CB", none, none⟩
        [(1, [⟨"GK", 0, some 40⟩])] = .ok [(1, [⟨"GK", 0, some 40⟩])]) ∧
    ((⟨some "Dummy", some 1, some 50, some "CB", none, none⟩ : Event).position = some "CB" →
      "CB" ≠ (⟨"GK", 0, some 40⟩ : Interval).position →
      (⟨some "Dummy", some 1, some 50, some "CB", none, none⟩ : Event).minute = some 50 →
      ∃ pp2, update_player_positions 1 ⟨some "Dummy", some 1, some 50, some "CB", none, none⟩
          [(1, [⟨"GK", 0, some 40⟩])] = .ok pp2 ∧
        lookupPP pp2 1 = some (([⟨"GK", 0, some 40⟩] : Timeline).dropLast ++
          [⟨"GK", 0, some 50⟩, ⟨"CB", 50, none⟩])) :=
  substitution_not_terminal ⟨some "Dummy", some 1, some 50, some "CB", none, none⟩
    [(1, [⟨"GK", 0, some 40⟩])] 1 [⟨"GK", 0, some 40⟩] ⟨"GK", 0, some 40⟩ "CB" 50
    rfl rfl (by decide)

theorem except_ok_bind {α β : Type} (a : α) (f : α → Except String β) :
    (Except.ok a >>= f) = f a := rfl

theorem update_player_positions_empty (pid : Nat) (e : Event)
    (h : e.position.isSome → e.minute.isSome) :
    update_player_positions pid e [] = .ok [] := by
  cases hpos : e.position with
  | none => simp [update_player_positions, hpos]
  | some pos =>
      have hm := h (by simp [hpos])
      obtain ⟨m, hm⟩ := Option.isSome_iff_exists.mp hm
      simp [update_player_positions, hpos, hm, lookupPP]

theorem process_event_empty (e : Event)
    (hnoxi : e.typeName ≠ some "Starting XI")
    (hsub : e.typeName = some "Substitution" →
      e.player.isSome ∧ e.replacement.isSome ∧ e.minute.isSome)
    (hpc : e.player.isSome → e.position.isSome → e.minute.isSome) :
    process_event e [] = .ok [] := by
  have hupd : ∀ pp1 : PlayerPositions, pp1 = [] →
      (match e.player with
        | some pid => update_player_positions pid e pp1
        | none => Except.ok pp1) = .ok [] := by
    intro pp1 hpp1
    subst hpp1
    cases hp : e.player with
    | none => rfl
    | some pid =>
        exact update_player_positions_empty pid e (hpc (by simp [hp]))
  by_cases h2 : e.typeName = some "Substitution"
  · obtain ⟨hpS, hrS, hmS⟩ := hsub h2
    obtain ⟨p, hp⟩ := Option.isSome_iff_exists.mp hpS
    obtain ⟨r, hr⟩ := Option.isSome_iff_exists.mp hrS
    obtain ⟨m, hm⟩ := Option.isSome_iff_exists.mp hmS
    have hsubst : handle_substitution e [] = .ok [] := by
      simp [handle_substitution, hp, hr, hm, lookupPP]
    simp only [process_event, if_neg hnoxi, if_pos h2, hsubst, except_ok_bind]
    exact hupd [] rfl
  · simp only [process_event, if_neg hnoxi, if_neg h2, except_ok_bind]
    exact hupd [] rfl

theorem aggregate_pass_event_empty (mp : MatchPositions) (e : Event) :
    aggregate_pass_event [] mp e = mp := by
  by_cases ht : e.typeName = some "Pass"
  · cases hp : e.player <;> simp [aggregate_pass_event, ht, hp, lookupPP]
  · simp [aggregate_pass_event, ht]

theorem aggregate_pass_data_empty (events : List Event) (mp : MatchPositions) :
    aggregate_pass_data events mp [] = mp := by
  induction events generalizing mp with
  | nil => rfl
  | cons e rest ih =>
      simp [aggregate_pass_data, List.foldl_cons, aggregate_pass_event_empty] at ih ⊢
      exact ih mp

/-- C7 counterexample: the claim's universal "rather than raising an error"
fails. With zero Starting XI events, a Substitution event without a minute
field makes match processing raise `KeyError` (`event["minute"]` is read
before the untracked-player safeguard), and so does an event carrying a
player id and a position payload but no minute (the minute is read before
the tracking check) — no empty mapping is returned. -/
theorem no_lineup_error_counterexample :
    process_events [⟨some "Substitution", some 9, none, none, some 4, none⟩] []
      = .error "KeyError: minute" ∧
    process_match [⟨some "Substitution", some 9, none, none, some 4, none⟩]
      = .error "KeyError: minute" ∧
    process_match [⟨some "Dummy", some 10, none, some "CB", none, none⟩]
      = .error "KeyError: minute" :=
  ⟨rfl, rfl, rfl⟩

/-- C7 amended: an event list with zero Starting XI events, in which every
Substitution event carries its player, replacement and minute fields and
every player-id-carrying event with a position payload carries a minute
field, produces an empty timeline map and an empty stats mapping, returned
as a valid result rather than an error. (Without those field conditions a
minute-less Substitution or position-change event raises `KeyError` even
with no lineup — see the counterexample.) -/
theorem no_lineup_empty_result (events : List Event)
    (hnoxi : ∀ e ∈ events, e.typeName ≠ some "Starting XI")
    (hsub : ∀ e ∈ events, e.typeName = some "Substitution" →
      e.player.isSome ∧ e.replacement.isSome ∧ e.minute.isSome)
    (hpc : ∀ e ∈ events, e.player.isSome → e.position.isSome → e.minute.isSome) :
    process_events events [] = .ok [] ∧ process_match events = .ok [] := by
  have hpe : process_events events [] = .ok [] := by
    induction events with
    | nil => rfl
    | cons e rest ih =>
        have he : process_event e [] = .ok [] :=
          process_event_empty e (hnoxi e (by simp))
            (hsub e (by simp)) (hpc e (by simp))
        have ihr := ih (fun x hx => hnoxi x (by simp [hx]))
          (fun x hx => hsub x (by simp [hx])) (fun x hx => hpc x (by simp [hx]))
        simp only [process_events, he, Except.bind]
        exact ihr
  refine ⟨hpe, ?_⟩
  simp [process_match, hpe, except_ok_bind, finalize_process, finalize_loop,
    aggregate_pass_data_empty]

/-- Witness for the amended C7: a pass, a substitution, a position-change
payload and an other event, all field-complete, but no Starting XI — the
result is the empty mapping. -/
theorem no_lineup_empty_result_witness :
    process_events [⟨some "Pass", some 10, some 5, none, none, none⟩,
        ⟨some "Substitution", some 9, some 12, none, some 4, none⟩,
        ⟨some "Dummy", some 10, some 30, some "CB", none, none⟩,
        ⟨some "Dummy", none, some 30, none, none, none⟩] [] = .ok [] ∧
    process_match [⟨some "Pass", some 10, some 5, none, none, none⟩,
        ⟨some "Substitution", some 9, some 12, none, some 4, none⟩,
        ⟨some "Dummy", some 10, some 30, some "CB", none, none⟩,
        ⟨some "Dummy", none, some 30, none, none, none⟩] = .ok [] :=
  no_lineup_empty_result
    [⟨some "Pass", some 10, some 5, none, none, none⟩,
     ⟨some "Substitution", some 9, some 12, none, some 4, none⟩,
     ⟨some "Dummy", some 10, some 30, some "CB", none, none⟩,
     ⟨some "Dummy", none, some 30, none, none, none⟩]
    (by decide) (by decide) (by decide)

theorem eq_dropLast_concat (tl : Timeline) (last : Interval)
    (h : tl.getLast? = some last) : tl = tl.dropLast ++ [last] := by
  induction tl with
  | nil => simp at h
  | cons i rest ih =>
      cases rest with
      | nil =>
          simp [List.getLast?] at h
          subst h
          simp
      | cons j rest2 =>
          rw [List.getLast?_cons_cons] at h
          have hd : (i :: j :: rest2).dropLast = i :: (j :: rest2).dropLast := rfl
          rw [hd, List.cons_append, ← ih h]

theorem timelines_wf_setPP (pp : PlayerPositions) (k : Nat) (v : Timeline)
    (hwf : timelines_wf pp) (hv : tl_shape v) : timelines_wf (setPP pp k v) := by
  intro pid tl h
  rw [lookupPP_setPP] at h
  by_cases hk : k = pid
  · simp only [if_pos hk, Option.some.injEq] at h
    subst h
    exact hv
  · rw [if_neg hk] at h
    exact hwf pid tl h

theorem tl_shape_setLastEnd (tl : Timeline) (last : Interval) (m : Nat)
    (h : tl.getLast? = some last) (hs : tl_shape tl) :
    tl_shape (setLastEnd tl m) := by
  rw [setLastEnd_eq tl last m h]
  exact ⟨by simp, by rw [List.dropLast_concat]; exact hs.2⟩

theorem tl_shape_append_open (tl : Timeline) (last : Interval) (m : Nat)
    (pos : String) (h : tl.getLast? = some last) (hs : tl_shape tl) :
    tl_shape (setLastEnd tl m ++ [⟨pos, m, none⟩]) := by
  refine ⟨by simp, ?_⟩
  rw [List.dropLast_concat, setLastEnd_eq tl last m h]
  intro i hi
  rcases List.mem_append.mp hi with h1 | h2
  · exact hs.2 i h1
  · simp at h2
    subst h2
    simp

theorem foldl_setPP_wf (l : List (Nat × String)) :
    ∀ pp : PlayerPositions, timelines_wf pp →
      timelines_wf (l.foldl (fun acc pl => setPP acc pl.1 [⟨pl.2, 0, none⟩]) pp) := by
  induction l with
  | nil => exact fun pp h => h
  | cons hd rest ih =>
      intro pp h
      exact ih _ (timelines_wf_setPP pp hd.1 _ h ⟨by simp, by simp⟩)

theorem extract_starting_xi_wf (e : Event) (pp pp2 : PlayerPositions)
    (h : extract_starting_xi e pp = .ok pp2) (hwf : timelines_wf pp) :
    timelines_wf pp2 := by
  cases hl : e.lineup with
  | none => simp [extract_starting_xi, hl] at h
  | some l =>
      simp only [extract_starting_xi, hl, Except.ok.injEq] at h
      subst h
      exact foldl_setPP_wf l pp hwf

theorem handle_substitution_wf (e : Event) (pp pp2 : PlayerPositions)
    (h : handle_substitution e pp = .ok pp2) (hwf : timelines_wf pp) :
    timelines_wf pp2 := by
  cases hp : e.player with
  | none => simp [handle_substitution, hp] at h
  | some p_out =>
  cases hr : e.replacement with
  | none => simp [handle_substitution, hp, hr] at h
  | some p_in =>
  cases hm : e.minute with
  | none => simp [handle_substitution, hp, hr, hm] at h
  | some m =>
  cases htl : lookupPP pp p_out with
  | none =>
      simp only [handle_substitution, hp, hr, hm, htl, Except.ok.injEq] at h
      subst h
      exact hwf
  | some tl =>
  cases hlast : tl.getLast? with
  | none => simp [handle_substitution, hp, hr, hm, htl, hlast] at h
  | some last =>
      simp only [handle_substitution, hp, hr, hm, htl, hlast, Except.ok.injEq] at h
      subst h
      exact timelines_wf_setPP _ _ _
        (timelines_wf_setPP _ _ _ hwf
          (tl_shape_setLastEnd tl last m hlast (hwf p_out tl htl)))
        ⟨by simp, by simp⟩

theorem update_player_positions_wf (pid : Nat) (e : Event) (pp pp2 : PlayerPositions)
    (h : update_player_positions pid e pp = .ok pp2) (hwf : timelines_wf pp) :
    timelines_wf pp2 := by
  cases hpos : e.position with
  | none =>
      simp only [update_player_positions, hpos, Except.ok.injEq] at h
      subst h
      exact hwf
  | some pos =>
  cases hm : e.minute with
  | none => simp [update_player_positions, hpos, hm] at h
  | some m =>
  cases htl : lookupPP pp pid with
  | none =>
      simp only [update_player_positions, hpos, hm, htl, Except.ok.injEq] at h
      subst h
      exact hwf
  | some tl =>
  cases hlast : tl.getLast? with
  | none => simp [update_player_positions, hpos, hm, htl, hlast] at h
  | some last =>
      by_cases hsame : pos = last.position
      · simp only [update_player_positions, hpos, hm, htl, hlast, if_pos hsame,
          Except.ok.injEq] at h
        subst h
        exact hwf
      · simp only [update_player_positions, hpos, hm, htl, hlast, if_neg hsame,
          Except.ok.injEq] at h
        subst h
        exact timelines_wf_setPP _ _ _ hwf
          (tl_shape_append_open tl last m pos hlast (hwf pid tl htl))

theorem process_event_wf (e : Event) (pp pp2 : PlayerPositions)
    (h : process_event e pp = .ok pp2) (hwf : timelines_wf pp) :
    timelines_wf pp2 := by
  have hk : ∀ pp1 : PlayerPositions, timelines_wf pp1 →
      (match e.player with
        | some pid => update_player_positions pid e pp1
        | none => Except.ok pp1) = .ok pp2 → timelines_wf pp2 := by
    intro pp1 hwf1 hk
    cases hpl : e.player with
    | none =>
        simp only [hpl, Except.ok.injEq] at hk
        subst hk
        exact hwf1
    | some pid =>
        simp only [hpl] at hk
        exact update_player_positions_wf pid e pp1 pp2 hk hwf1
  by_cases h1 : e.typeName = some "Starting XI"
  · simp only [process_event, if_pos h1] at h
    obtain ⟨pp1, hx, hcont⟩ := except_bind_ok _ _ _ h
    exact hk pp1 (extract_starting_xi_wf e pp pp1 hx hwf) hcont
  · by_cases h2 : e.typeName = some "Substitution"
    · simp only [process_event, if_neg h1, if_pos h2] at h
      obtain ⟨pp1, hx, hcont⟩ := except_bind_ok _ _ _ h
      exact hk pp1 (handle_substitution_wf e pp pp1 hx hwf) hcont
    · simp only [process_event, if_neg h1, if_neg h2, except_ok_bind] at h
      exact hk pp hwf h

theorem process_events_wf (events : List Event) :
    ∀ pp pp2 : PlayerPositions, process_events events pp = .ok pp2 →
      timelines_wf pp → timelines_wf pp2 := by
  induction events with
  | nil =>
      intro pp pp2 h hwf
      simp only [process_events, Except.ok.injEq] at h
      subst h
      exact hwf
  | cons e rest ih =>
      intro pp pp2 h hwf
      simp only [process_events] at h
      obtain ⟨pp1, hx, hcont⟩ := except_bind_ok _ _ _ h
      exact ih pp1 pp2 hcont (process_event_wf e pp pp1 hx hwf)

theorem sorted_concat_le (xs : List Nat) (m : Nat) (h : List.Sorted (· ≤ ·) xs)
    (hb : ∀ x ∈ xs, x ≤ m) : List.Sorted (· ≤ ·) (xs ++ [m]) :=
  List.pairwise_append.mpr ⟨h, List.pairwise_singleton _ _,
    fun a ha b hb2 => by
      simp at hb2
      subst hb2
      exact hb a ha⟩

theorem tl_sorted_le_mono (tl : Timeline) (lo m : Nat) (h : lo ≤ m)
    (hs : tl_sorted_le tl lo) : tl_sorted_le tl m :=
  ⟨hs.1, fun i hi => le_trans (hs.2 i hi) h⟩

theorem timelines_sorted_mono (pp : PlayerPositions) (lo m : Nat) (h : lo ≤ m)
    (hs : timelines_sorted pp lo) : timelines_sorted pp m :=
  fun pid tl htl => tl_sorted_le_mono tl lo m h (hs pid tl htl)

theorem timelines_sorted_setPP (pp : PlayerPositions) (k : Nat) (v : Timeline)
    (lo : Nat) (hs : timelines_sorted pp lo) (hv : tl_sorted_le v lo) :
    timelines_sorted (setPP pp k v) lo := by
  intro pid tl h
  rw [lookupPP_setPP] at h
  by_cases hk : k = pid
  · simp only [if_pos hk, Option.some.injEq] at h
    subst h
    exact hv
  · rw [if_neg hk] at h
    exact hs pid tl h

theorem setLastEnd_map_start (tl : Timeline) (last : Interval) (m : Nat)
    (h : tl.getLast? = some last) :
    (setLastEnd tl m).map Interval.start_time = tl.map Interval.start_time := by
  rw [setLastEnd_eq tl last m h]
  conv_rhs => rw [eq_dropLast_concat tl last h]
  simp

theorem tl_sorted_le_setLastEnd (tl : Timeline) (last : Interval) (m lo : Nat)
    (h : tl.getLast? = some last) (hs : tl_sorted_le tl lo) :
    tl_sorted_le (setLastEnd tl m) lo := by
  constructor
  · rw [setLastEnd_map_start tl last m h]
    exact hs.1
  · intro i hi
    rw [setLastEnd_eq tl last m h] at hi
    rcases List.mem_append.mp hi with h1 | h2
    · refine hs.2 i ?_
      rw [eq_dropLast_concat tl last h]
      exact List.mem_append_left _ h1
    · simp at h2
      subst h2
      refine hs.2 last ?_
      rw [eq_dropLast_concat tl last h]
      exact List.mem_append_right _ (by simp)

theorem tl_sorted_le_append_open (tl : Timeline) (last : Interval) (m lo : Nat)
    (pos : String) (h : tl.getLast? = some last) (hlom : lo ≤ m)
    (hs : tl_sorted_le tl lo) :
    tl_sorted_le (setLastEnd tl m ++ [⟨pos, m, none⟩]) m := by
  have hse := tl_sorted_le_setLastEnd tl last m lo h hs
  constructor
  · rw [List.map_append]
    refine sorted_concat_le _ m hse.1 ?_
    intro x hx
    obtain ⟨i, hi, hxi⟩ := List.mem_map.mp hx
    subst hxi
    exact le_trans (hse.2 i hi) hlom
  · intro i hi
    rcases List.mem_append.mp hi with h1 | h2
    · exact le_trans (hse.2 i h1) hlom
    · simp at h2
      subst h2
      exact le_refl m

theorem foldl_setPP_sorted (l : List (Nat × String)) (lo : Nat) :
    ∀ pp : PlayerPositions, timelines_sorted pp lo →
      timelines_sorted (l.foldl (fun acc pl => setPP acc pl.1 [⟨pl.2, 0, none⟩]) pp) lo := by
  induction l with
  | nil => exact fun pp h => h
  | cons hd rest ih =>
      intro pp h
      refine ih _ (timelines_sorted_setPP pp hd.1 _ lo h ?_)
      exact ⟨List.sorted_singleton _, by simp⟩

theorem handle_substitution_sorted (e : Event) (pp pp2 : PlayerPositions)
    (lo m : Nat) (h : handle_substitution e pp = .ok pp2) (hm : e.minute = some m)
    (hlom : lo ≤ m) (hs : timelines_sorted pp lo) : timelines_sorted pp2 m := by
  cases hp : e.player with
  | none => simp [handle_substitution, hp] at h
  | some p_out =>
  cases hr : e.replacement with
  | none => simp [handle_substitution, hp, hr] at h
  | some p_in =>
  cases htl : lookupPP pp p_out with
  | none =>
      simp only [handle_substitution, hp, hr, hm, htl, Except.ok.injEq] at h
      subst h
      exact timelines_sorted_mono pp lo m hlom hs
  | some tl =>
  cases hlast : tl.getLast? with
  | none => simp [handle_substitution, hp, hr, hm, htl, hlast] at h
  | some last =>
      simp only [handle_substitution, hp, hr, hm, htl, hlast, Except.ok.injEq] at h
      subst h
      refine timelines_sorted_setPP _ _ _ m
        (timelines_sorted_setPP _ _ _ m (timelines_sorted_mono pp lo m hlom hs) ?_)
        ⟨List.sorted_singleton _, by simp⟩
      exact tl_sorted_le_setLastEnd tl last m m hlast
        (tl_sorted_le_mono tl lo m hlom (hs p_out tl htl))

theorem update_player_positions_sorted (pid : Nat) (e : Event)
    (pp pp2 : PlayerPositions) (lo m : Nat)
    (h : update_player_positions pid e pp = .ok pp2)
    (hm : e.minute = some m ∨ (e.minute = none ∧ m = lo)) (hlom : lo ≤ m)
    (hs : timelines_sorted pp lo) : timelines_sorted pp2 m := by
  cases hpos : e.position with
  | none =>
      simp only [update_player_positions, hpos, Except.ok.injEq] at h
      subst h
      exact timelines_sorted_mono pp lo m hlom hs
  | some pos =>
  cases hmE : e.minute with
  | none => simp [update_player_positions, hpos, hmE] at h
  | some m2 =>
  have hm2 : m = m2 := by
    rcases hm with hm | ⟨hm, _⟩
    · rw [hmE] at hm
      exact (Option.some.inj hm).symm
    · rw [hmE] at hm
      exact absurd hm (by simp)
  subst hm2
  cases htl : lookupPP pp pid with
  | none =>
      simp only [update_player_positions, hpos, hmE, htl, Except.ok.injEq] at h
      subst h
      exact timelines_sorted_mono pp lo m hlom hs
  | some tl =>
  cases hlast : tl.getLast? with
  | none => simp [update_player_positions, hpos, hmE, htl, hlast] at h
  | some last =>
      by_cases hsame : pos = last.position
      · simp only [update_player_positions, hpos, hmE, htl, hlast, if_pos hsame,
          Except.ok.injEq] at h
        subst h
        exact timelines_sorted_mono pp lo m hlom hs
      · simp only [update_player_positions, hpos, hmE, htl, hlast, if_neg hsame,
          Except.ok.injEq] at h
        subst h
        exact timelines_sorted_setPP _ _ _ m (timelines_sorted_mono pp lo m hlom hs)
          (tl_sorted_le_append_open tl last m lo pos hlast hlom (hs pid tl htl))

theorem process_event_sorted (e : Event) (pp pp2 : PlayerPositions) (lo m : Nat)
    (h : process_event e pp = .ok pp2)
    (hm : e.minute = some m ∨ (e.minute = none ∧ m = lo)) (hlom : lo ≤ m)
    (hs : timelines_sorted pp lo) : timelines_sorted pp2 m := by
  have hk : ∀ (pp1 : PlayerPositions) (lo1 : Nat), lo1 ≤ m →
      (e.minute = some m ∨ (e.minute = none ∧ m = lo1)) →
      timelines_sorted pp1 lo1 →
      (match e.player with
        | some pid => update_player_positions pid e pp1
        | none => Except.ok pp1) = .ok pp2 → timelines_sorted pp2 m := by
    intro pp1 lo1 hlo1 hm1 hs1 hcont
    cases hpl : e.player with
    | none =>
        simp only [hpl, Except.ok.injEq] at hcont
        subst hcont
        exact timelines_sorted_mono pp1 lo1 m hlo1 hs1
    | some pid =>
        simp only [hpl] at hcont
        exact update_player_positions_sorted pid e pp1 pp2 lo1 m hcont hm1 hlo1 hs1
  by_cases h1 : e.typeName = some "Starting XI"
  · simp only [process_event, if_pos h1] at h
    obtain ⟨pp1, hx, hcont⟩ := except_bind_ok _ _ _ h
    have hs1 : timelines_sorted pp1 lo := by
      cases hl : e.lineup with
      | none => simp [extract_starting_xi, hl] at hx
      | some l =>
          simp only [extract_starting_xi, hl, Except.ok.injEq] at hx
          subst hx
          exact foldl_setPP_sorted l lo pp hs
    exact hk pp1 lo hlom hm hs1 hcont
  · by_cases h2 : e.typeName = some "Substitution"
    · simp only [process_event, if_neg h1, if_pos h2] at h
      obtain ⟨pp1, hx, hcont⟩ := except_bind_ok _ _ _ h
      cases hmE : e.minute with
      | none =>
          cases hp : e.player with
          | none => simp [handle_substitution, hp] at hx
          | some p_out =>
              cases hr : e.replacement with
              | none => simp [handle_substitution, hp, hr] at hx
              | some p_in => simp [handle_substitution, hp, hr, hmE] at hx
      | some m2 =>
          have hm2 : m = m2 := by
            rcases hm with hm | ⟨hm, _⟩
            · rw [hmE] at hm
              exact (Option.some.inj hm).symm
            · rw [hmE] at hm
              exact absurd hm (by simp)
          subst hm2
          have hs1 := handle_substitution_sorted e pp pp1 lo m hx hmE hlom hs
          exact hk pp1 m le_rfl (Or.inl hmE) hs1 hcont
    · simp only [process_event, if_neg h1, if_neg h2, except_ok_bind] at h
      exact hk pp lo hlom hm hs h

theorem process_events_sorted (events : List Event) :
    ∀ (pp pp2 : PlayerPositions) (lo : Nat),
      process_events events pp = .ok pp2 → timelines_sorted pp lo →
      List.Sorted (· ≤ ·) (events.filterMap Event.minute) →
      (∀ x ∈ events.filterMap Event.minute, lo ≤ x) →
      ∃ lo2, timelines_sorted pp2 lo2 := by
  induction events with
  | nil =>
      intro pp pp2 lo h hs _ _
      simp only [process_events, Except.ok.injEq] at h
      subst h
      exact ⟨lo, hs⟩
  | cons e rest ih =>
      intro pp pp2 lo h hs hsorted hb
      simp only [process_events] at h
      obtain ⟨pp1, hx, hcont⟩ := except_bind_ok _ _ _ h
      cases he : e.minute with
      | none =>
          have hfm : (e :: rest).filterMap Event.minute = rest.filterMap Event.minute := by
            simp [List.filterMap_cons, he]
          rw [hfm] at hsorted hb
          have hs1 := process_event_sorted e pp pp1 lo lo hx (Or.inr ⟨he, rfl⟩) le_rfl hs
          exact ih pp1 pp2 lo hcont hs1 hsorted hb
      | some m =>
          have hfm : (e :: rest).filterMap Event.minute
              = m :: rest.filterMap Event.minute := by
            simp [List.filterMap_cons, he]
          rw [hfm] at hsorted hb
          have hlom : lo ≤ m := hb m (by simp)
          have hs1 := process_event_sorted e pp pp1 lo m hx (Or.inl he) hlom hs
          exact ih pp1 pp2 m hcont hs1 (List.sorted_cons.mp hsorted).2
            (List.rel_of_sorted_cons hsorted)

/-- C9: after processing any event list (and hence after any prefix of a
match's events, each prefix being itself such a list), every tracked player's
timeline is non-empty and every interval except the last is closed (so there
is at most one open interval and, if present, it is the last element); and if
the minute values carried by the events are non-decreasing, the start times
of every timeline are non-decreasing. -/
theorem timeline_invariants_hold (events : List Event) (pp2 : PlayerPositions)
    (hok : process_events events [] = .ok pp2) :
    (∀ pid tl, lookupPP pp2 pid = some tl →
      tl ≠ [] ∧ ∀ i ∈ tl.dropLast, i.end_time ≠ none) ∧
    (List.Sorted (· ≤ ·) (events.filterMap Event.minute) →
      ∀ pid tl, lookupPP pp2 pid = some tl →
        List.Sorted (· ≤ ·) (tl.map Interval.start_time)) := by
  have hempty : timelines_wf [] := by
    intro pid tl h
    simp [lookupPP] at h
  constructor
  · exact process_events_wf events [] pp2 hok hempty
  · intro hsorted pid tl htl
    have hempty2 : timelines_sorted [] 0 := by
      intro pid2 tl2 h
      simp [lookupPP] at h
    obtain ⟨lo2, hs2⟩ := process_events_sorted events [] pp2 0 hok hempty2 hsorted
      (fun x _ => Nat.zero_le x)
    exact (hs2 pid tl htl).1

/-- Witness for C9 on the repository's own end-to-end scenario (lineup,
position change at 15, substitution at 30, passes, final whistle event). -/
theorem timeline_invariants_hold_witness :
    (∀ pid tl,
      lookupPP [(1, [⟨"GK", 0, none⟩]),
        (2, [⟨"CB", 0, some 15⟩, ⟨"RB", 15, some 30⟩]),
        (3, [⟨"RB", 30, none⟩])] pid = some tl →
      tl ≠ [] ∧ ∀ i ∈ tl.dropLast, i.end_time ≠ none) ∧
    (List.Sorted (· ≤ ·)
        (([⟨some "Starting XI", none, none, none, none, some [(1, "GK"), (2, "CB")]⟩,
          ⟨some "Dummy", some 2, some 15, some "RB", none, none⟩,
          ⟨some "Pass", some 2, some 20, none, none, none⟩,
          ⟨some "Substitution", some 2, some 30, none, some 3, none⟩,
          ⟨some "Pass", some 3, some 40, none, none, none⟩,
          ⟨some "Pass", some 3, some 70, none, none, none⟩,
          ⟨some "Dummy", none, some 80, none, none, none⟩] : List Event).filterMap
            Event.minute) →
      ∀ pid tl,
        lookupPP [(1, [⟨"GK", 0, none⟩]),
          (2, [⟨"CB", 0, some 15⟩, ⟨"RB", 15, some 30⟩]),
          (3, [⟨"RB", 30, none⟩])] pid = some tl →
        List.Sorted (· ≤ ·) (tl.map Interval.start_time)) :=
  timeline_invariants_hold
    [⟨some "Starting XI", none, none, none, none, some [(1, "GK"), (2, "CB")]⟩,
     ⟨some "Dummy", some 2, some 15, some "RB", none, none⟩,
     ⟨some "Pass", some 2, some 20, none, none, none⟩,
     ⟨some "Substitution", some 2, some 30, none, some 3, none⟩,
     ⟨some "Pass", some 3, some 40, none, none, none⟩,
     ⟨some "Pass", some 3, some 70, none, none, none⟩,
     ⟨some "Dummy", none, some 80, none, none, none⟩]
    [(1, [⟨"GK", 0, none⟩]),
     (2, [⟨"CB", 0, some 15⟩, ⟨"RB", 15, some 30⟩]),
     (3, [⟨"RB", 30, none⟩])]
    rfl

theorem build_aux (changes : List (String × Nat)) (s0 T : Nat) :
    ∀ (closed : Timeline) (p : String) (s : Nat),
      List.Sorted (· ≤ ·) (changes.map Prod.snd) →
      (∀ c ∈ changes, s ≤ c.2) →
      (∀ c ∈ changes, c.2 ≤ T) →
      s0 ≤ s → s ≤ T →
      (closed.map clamped_minutes).sum = (s : Int) - (s0 : Int) →
      (∀ i ∈ closed, i.end_time ≠ none) →
      ((closed ++ [Interval.mk p s none]).map Interval.start_time).head? = some s0 →
      ∃ (closed2 : Timeline) (p2 : String) (s2 : Nat),
        changes.foldl (fun tl c => poschange_step tl c.1 c.2) (closed ++ [Interval.mk p s none])
          = closed2 ++ [Interval.mk p2 s2 none] ∧
        (closed2.map clamped_minutes).sum = (s2 : Int) - (s0 : Int) ∧
        s0 ≤ s2 ∧ s2 ≤ T ∧
        (∀ i ∈ closed2, i.end_time ≠ none) ∧
        ((closed2 ++ [Interval.mk p2 s2 none]).map Interval.start_time).head? = some s0 := by
  induction changes with
  | nil =>
      intro closed p s _ _ _ hs0 hsT hsum hcl hhead
      exact ⟨closed, p, s, rfl, hsum, hs0, hsT, hcl, hhead⟩
  | cons c rest ih =>
      intro closed p s hsorted hge hTall hs0 hsT hsum hcl hhead
      obtain ⟨pos, m⟩ := c
      have hsm : s ≤ m := hge (pos, m) (by simp)
      have hmT : m ≤ T := hTall (pos, m) (by simp)
      have hsorted2 := (List.sorted_cons.mp hsorted).2
      have hrel := (List.sorted_cons.mp hsorted).1
      have hstep : poschange_step (closed ++ [Interval.mk p s none]) pos m
          = if pos = p then closed ++ [Interval.mk p s none]
            else (closed ++ [Interval.mk p s (some m)]) ++ [Interval.mk pos m none] := by
        simp only [poschange_step, List.getLast?_concat, setLastEnd_concat]
      by_cases hpp : pos = p
      · rw [List.foldl_cons]
        simp only [hstep, if_pos hpp]
        exact ih closed p s hsorted2 (fun x hx => hge x (by simp [hx]))
          (fun x hx => hTall x (by simp [hx])) hs0 hsT hsum hcl hhead
      · rw [List.foldl_cons]
        simp only [hstep, if_neg hpp]
        have hsum2 : ((closed ++ [Interval.mk p s (some m)]).map clamped_minutes).sum
            = (m : Int) - (s0 : Int) := by
          have hcm : clamped_minutes (Interval.mk p s (some m)) = (m : Int) - (s : Int) := by
            simp only [clamped_minutes, Option.getD_some]
            omega
          simp [hsum, hcm]
        have hcl2 : ∀ i ∈ closed ++ [Interval.mk p s (some m)], i.end_time ≠ none := by
          intro i hi
          rcases List.mem_append.mp hi with h1 | h2
          · exact hcl i h1
          · simp at h2
            subst h2
            simp
        have hhead2 : (((closed ++ [Interval.mk p s (some m)]) ++ [Interval.mk pos m none]).map
            Interval.start_time).head? = some s0 := by
          cases closed with
          | nil => simp at hhead ⊢; exact hhead
          | cons x xs => simp at hhead ⊢; exact hhead
        refine ih (closed ++ [Interval.mk p s (some m)]) pos m hsorted2 ?_ ?_
          (le_trans hs0 hsm) hmT hsum2 hcl2 hhead2
        · intro x hx
          exact hrel x.2 (List.mem_map_of_mem _ hx)
        · intro x hx
          exact hTall x (by simp [hx])

/-- C5: a single uninterrupted timeline — one interval opened at `s0` by the
lineup (`s0 = 0`) or by a substitution-in, followed by position changes at
non-decreasing minutes that stay between `s0` and the finalization time `T` —
when closed at `T` and summed by the code's clamped-minutes loop yields total
minutes exactly `T` minus the timeline's first `start_time` (which is `s0`). -/
theorem single_timeline_minutes_conservation (s0 T : Nat) (pos0 : String)
    (changes : List (String × Nat))
    (hsorted : List.Sorted (· ≤ ·) (changes.map Prod.snd))
    (hge : ∀ c ∈ changes, s0 ≤ c.2)
    (hT : s0 ≤ T) (hTall : ∀ c ∈ changes, c.2 ≤ T) :
    ∃ mp, sum_timeline_minutes [] (close_timeline T (build s0 pos0 changes)) = .ok mp ∧
      total_minutes mp = (T : Int) - (s0 : Int) ∧
      ((build s0 pos0 changes).map Interval.start_time).head? = some s0 := by
  obtain ⟨closed2, p2, s2, heq, hsum, hs0s2, hs2T, hcl2, hhead⟩ :=
    build_aux changes s0 T [] pos0 s0 hsorted hge hTall le_rfl hT
      (by simp) (by simp) (by simp)
  have hbuild : build s0 pos0 changes = closed2 ++ [Interval.mk p2 s2 none] := by
    unfold build
    simpa using heq
  have hclose : close_timeline T (build s0 pos0 changes)
      = closed2 ++ [Interval.mk p2 s2 (some T)] := by
    rw [hbuild]
    simp [close_timeline, List.getLast?_concat, setLastEnd_concat]
  have hclosedall : ∀ i ∈ closed2 ++ [Interval.mk p2 s2 (some T)], i.end_time ≠ none := by
    intro i hi
    rcases List.mem_append.mp hi with h1 | h2
    · exact hcl2 i h1
    · simp at h2
      subst h2
      simp
  obtain ⟨mp, hok, _, _, htot⟩ :=
    sum_timeline_minutes_ok (closed2 ++ [Interval.mk p2 s2 (some T)]) [] hclosedall
  refine ⟨mp, by rw [hclose]; exact hok, ?_, by rw [hbuild]; exact hhead⟩
  have hcT : clamped_minutes (Interval.mk p2 s2 (some T)) = (T : Int) - (s2 : Int) := by
    simp only [clamped_minutes, Option.getD_some]
    omega
  rw [htot]
  simp [total_minutes, hsum, hcT]

/-- Witness for C5: lineup interval from minute 0, position changes at 15 and
30, finalized at 80: total minutes are `80 - 0`. -/
theorem single_timeline_minutes_conservation_witness :
    ∃ mp, sum_timeline_minutes []
        (close_timeline 80 (build 0 "CB" [("RB", 15), ("LB", 30)])) = .ok mp ∧
      total_minutes mp = (80 : Int) - (0 : Int) ∧
      ((build 0 "CB" [("RB", 15), ("LB", 30)]).map Interval.start_time).head? = some 0 :=
  single_timeline_minutes_conservation 0 80 "CB" [("RB", 15), ("LB", 30)]
    (by decide) (by decide) (by decide) (by decide)

end PassesPerMinute
